import Mathlib

/-!
Verification of the dark-mode contrast fixer script
(apps/frontend/scripts/fix-dark-mode-contrast.py).

The script reads every file matching the glob pattern *.tsx below a fixed
root directory, applies the regular-expression substitution
re.sub(r'dark:text-gray-700\b', 'dark:text-gray-300', content)
to its text, and writes the result back in place.

The model below embeds the text transformation as a left-to-right scanner
over lists of characters (the semantics of re.sub: leftmost matches,
non-overlapping, scanning resumes after the end of each replacement), and
the file-system interaction as explicit state passing over a small
file-system record.
-/

namespace DarkFix

/-- Word characters for the regex boundary assertion after the pattern.
Python 3 defines the boundary via the word-character class, which on ASCII
text is exactly letters, digits and underscore; this model uses that ASCII
classification, which agrees with Python on all ASCII characters. -/
def isWordChar (c : Char) : Bool :=
  c.isAlpha || c.isDigit || c == '_'

/-- The search token of the substitution, the characters of
dark:text-gray-700 (the regex is this literal followed by a word
boundary). -/
def tok : List Char :=
  ['d', 'a', 'r', 'k', ':', 't', 'e', 'x', 't', '-', 'g', 'r', 'a', 'y',
   '-', '7', '0', '0']

/-- The characters of the search token after its first character. -/
def tokTail : List Char :=
  ['a', 'r', 'k', ':', 't', 'e', 'x', 't', '-', 'g', 'r', 'a', 'y',
   '-', '7', '0', '0']

/-- The replacement string, the characters of dark:text-gray-300. -/
def rep : List Char :=
  ['d', 'a', 'r', 'k', ':', 't', 'e', 'x', 't', '-', 'g', 'r', 'a', 'y',
   '-', '3', '0', '0']

/-- The characters of the replacement string after its first character. -/
def repTail : List Char :=
  ['a', 'r', 'k', ':', 't', 'e', 'x', 't', '-', 'g', 'r', 'a', 'y',
   '-', '3', '0', '0']

/-- There is a word boundary between the end of the token and the rest of
the text exactly when the rest is empty or starts with a non-word
character (the last token character 0 is a word character). -/
def boundaryOk : List Char → Bool
  | [] => true
  | c :: _ => !(isWordChar c)

/-- Matching the remaining token characters against the text, followed by
the boundary assertion once the token is exhausted. -/
def tokFrom : List Char → List Char → Bool
  | [], l => boundaryOk l
  | _ :: _, [] => false
  | t :: ts, c :: cs => t == c && tokFrom ts cs

/-- The regex dark:text-gray-700 followed by a word boundary matches at the
start of l. -/
def tokAt (l : List Char) : Bool :=
  tokFrom tok l

/-- Fuel-indexed scanner for re.sub: at each position, if the regex matches
there, emit the replacement and resume after the match, otherwise emit the
character and move one position right.  The fuel bounds the number of
steps; it is always instantiated with the length of the list. -/
def fixAux : Nat → List Char → List Char
  | 0, l => l
  | _ + 1, [] => []
  | fuel + 1, c :: cs =>
    if tokAt (c :: cs) then rep ++ fixAux fuel (cs.drop 17)
    else c :: fixAux fuel cs

/-- The text transformation performed by the script on one file content:
re.sub of the token-plus-boundary regex by the replacement string. -/
def fixSub (l : List Char) : List Char :=
  fixAux l.length l

/-- Fuel-indexed counter of the replacements the scanner makes. -/
def cntAux : Nat → List Char → Nat
  | 0, _ => 0
  | _ + 1, [] => 0
  | fuel + 1, c :: cs =>
    if tokAt (c :: cs) then cntAux fuel (cs.drop 17) + 1
    else cntAux fuel cs

/-- The number of replacements re.sub performs on l (what re.subn would
report). -/
def countRepl (l : List Char) : Nat :=
  cntAux l.length l

/-- Some position of l matches the token-plus-boundary regex. -/
def hasTok : List Char → Bool
  | [] => false
  | c :: cs => tokAt (c :: cs) || hasTok cs

/-- The number of positions of l at which the token-plus-boundary regex
matches. -/
def numOcc : List Char → Nat
  | [] => 0
  | c :: cs => (if tokAt (c :: cs) then 1 else 0) + numOcc cs

/-- The first list is an initial segment of the second. -/
def startsW : List Char → List Char → Bool
  | [], _ => true
  | _ :: _, [] => false
  | a :: as, b :: bs => a == b && startsW as bs

/-- The first list occurs as a contiguous segment of the second. -/
def hasSub (p : List Char) : List Char → Bool
  | [] => startsW p []
  | c :: cs => startsW p (c :: cs) || hasSub p cs

/-- A file of the modelled file tree: its name (the last path component,
what the glob pattern is matched against), its full path (the unique
identifier open() resolves), permission flags for the two open() calls, and
its text content. -/
structure SimFile where
  path : List Char
  name : List Char
  readable : Bool
  writable : Bool
  content : List Char
deriving DecidableEq

/-- The file-system state an execution of the script sees: whether the
hard-coded root directory apps/frontend/src exists relative to the working
directory, and the regular files below it in traversal order. -/
structure FS where
  rootExists : Bool
  files : List SimFile
deriving DecidableEq

/-- The characters of the extension suffix .tsx. -/
def tsxExt : List Char := ['.', 't', 's', 'x']

/-- The glob pattern *.tsx matches a file name exactly when the name ends
with .tsx (the star matches any, possibly empty, run of characters). -/
def matchesTsx (name : List Char) : Bool :=
  tsxExt.isSuffixOf name

/-- The enumeration src_dir.rglob of the pattern *.tsx: every file below
the root whose name matches the pattern, in traversal order.  pathlib
yields nothing, without raising, when the root directory does not exist
(the glob machinery swallows the failed directory scan), so a missing root
gives the empty list exactly like an empty tree. -/
def rglobTsx (fs : FS) : List SimFile :=
  if fs.rootExists then fs.files.filter (fun f => matchesTsx f.name) else []

/-- The error the script can raise: an OSError (IOError kind) from open()
on the given path. -/
inductive PyErr where
  | ioError : List Char → PyErr
deriving DecidableEq

/-- Python values the modelled functions can return; a Python function
whose body has no return statement returns None. -/
inductive PyVal where
  | none : PyVal
  | int : Nat → PyVal
deriving DecidableEq

/-- Events recording which files the script opens: a read of a path, or a
write of the given full new content to a path. -/
inductive Event where
  | readF : List Char → Event
  | writeF : List Char → List Char → Event
deriving DecidableEq

/-- Looking a path up in the file tree (what open() resolves). -/
def lookupFile (fs : FS) (p : List Char) : Option SimFile :=
  fs.files.find? (fun f => f.path == p)

/-- The content stored at path p, when a file is there. -/
def contentAt (fs : FS) (p : List Char) : Option (List Char) :=
  (lookupFile fs p).map (fun f => f.content)

/-- Overwriting the content of the file at path p, leaving every other
file unchanged. -/
def writeContent (fs : FS) (p : List Char) (c : List Char) : FS :=
  { fs with
    files := fs.files.map
      (fun f => if f.path == p then { f with content := c } else f) }

/-- The function fix_dark_mode_contrast of the script: open the file for
reading and read it, apply the substitution, then open the file for
writing and write the result back, even when nothing changed.  The body
has no return statement, so the function returns None.  A failed open()
raises an OSError carrying the path; since mode w truncates only once the
open succeeds, a file that cannot be opened for writing keeps its original
content. -/
def fix_dark_mode_contrast (p : List Char) (fs : FS) :
    List Event × Except PyErr (PyVal × FS) :=
  match lookupFile fs p with
  | Option.none => ([], Except.error (PyErr.ioError p))
  | Option.some f =>
    if f.readable = false then ([], Except.error (PyErr.ioError p))
    else
      let c2 := fixSub f.content
      if f.writable = false then ([Event.readF p], Except.error (PyErr.ioError p))
      else ([Event.readF p, Event.writeF p c2],
        Except.ok (PyVal.none, writeContent fs p c2))

/-- The state after the loop of main: the final file system, the open
events that happened, and the uncaught exception when one was raised. -/
structure LoopResult where
  fs : FS
  events : List Event
  err : Option PyErr
deriving DecidableEq

/-- The loop of main: process the discovered files in order.  The script
has no try/except, so an exception raised for one file propagates and
stops the whole loop, leaving the remaining files unprocessed. -/
def processFiles : List (List Char) → FS → LoopResult
  | [], fs => ⟨fs, [], Option.none⟩
  | p :: ps, fs =>
    match fix_dark_mode_contrast p fs with
    | (evs, Except.error e) => ⟨fs, evs, Option.some e⟩
    | (evs, Except.ok (_, fs2)) =>
      let r := processFiles ps fs2
      ⟨r.fs, evs ++ r.events, r.err⟩

/-- Decimal digit characters of a natural number, as str(n) renders it
inside the f-string. -/
def natChars (n : Nat) : List Char :=
  Nat.toDigits 10 n

/-- The line printed before processing. -/
def countMsg (n : Nat) : List Char :=
  String.toList "Fixing dark mode contrast in " ++ natChars n
    ++ String.toList " files..."

/-- The line printed after processing. -/
def doneMsg : List Char :=
  String.toList "Dark mode contrast fixes applied!"

/-- The observable outcome of one run of the script: final file system,
the lines printed to standard output, the open events, and the uncaught
exception when one was raised (the process exit status is non-zero exactly
when that component is present). -/
structure RunResult where
  fs : FS
  out : List (List Char)
  events : List Event
  err : Option PyErr
deriving DecidableEq

/-- The function main of the script: enumerate the *.tsx files below the
hard-coded root, print how many were found, process each in turn, and
print the completion message; an uncaught exception stops the run before
the completion message is printed. -/
def pyMain (fs : FS) : RunResult :=
  let tsx := rglobTsx fs
  let r := processFiles (tsx.map (fun f => f.path)) fs
  ⟨r.fs,
   countMsg tsx.length
     :: (match r.err with | Option.none => [doneMsg] | Option.some _ => []),
   r.events, r.err⟩

/-- Modelled from the spec (the script itself computes no such total): the
number of files a run actually modifies, the enumerated files whose
content the substitution changes. -/
def specModifiedTotal (fs : FS) : Nat :=
  ((rglobTsx fs).filter (fun f => !(fixSub f.content == f.content))).length

/-- The decimal representation of n occurs somewhere in the line. -/
def mentionsNum (line : List Char) (n : Nat) : Bool :=
  hasSub (natChars n) line

/-- The path an open event touches. -/
def evPath : Event → List Char
  | Event.readF p => p
  | Event.writeF p _ => p

/-- The value a call returns when it does not raise. -/
def retVal : Except PyErr (PyVal × FS) → Option PyVal
  | Except.ok (v, _) => Option.some v
  | Except.error _ => Option.none

/-- The file system a call leaves behind when it does not raise. -/
def retFS : Except PyErr (PyVal × FS) → Option FS
  | Except.ok (_, fs2) => Option.some fs2
  | Except.error _ => Option.none

/-- Propositional equality on Except results is decidable once it is on
both components; used to evaluate the model on concrete states. -/
instance instDecEqExcept {e a : Type} [DecidableEq e] [DecidableEq a] :
    DecidableEq (Except e a)
  | Except.error x, Except.error y =>
    if h : x = y then Decidable.isTrue (by rw [h])
    else Decidable.isFalse (by intro hc; cases hc; exact h rfl)
  | Except.error _, Except.ok _ => Decidable.isFalse (by intro hc; cases hc)
  | Except.ok _, Except.error _ => Decidable.isFalse (by intro hc; cases hc)
  | Except.ok x, Except.ok y =>
    if h : x = y then Decidable.isTrue (by rw [h])
    else Decidable.isFalse (by intro hc; cases hc; exact h rfl)

/-- A lookup result that can be opened for reading and for writing. -/
def readyFile : Option SimFile → Bool
  | Option.some f => f.readable && f.writable
  | Option.none => false

/-- Fixture: a readable and writable .tsx file whose content is exactly the
search token. -/
def fileA : SimFile :=
  ⟨String.toList "apps/frontend/src/a.tsx", String.toList "a.tsx",
   true, true, tok⟩

/-- Fixture: a .tsx file that cannot be opened for reading. -/
def fileB : SimFile :=
  ⟨String.toList "apps/frontend/src/b.tsx", String.toList "b.tsx",
   false, true, tok⟩

/-- Fixture: a second readable and writable .tsx file containing the
token. -/
def fileC : SimFile :=
  ⟨String.toList "apps/frontend/src/c.tsx", String.toList "c.tsx",
   true, true, tok⟩

/-- Fixture: three .tsx files of which the second is unreadable. -/
def fsBatch : FS := ⟨true, [fileA, fileB, fileC]⟩

/-- Fixture: the root directory does not exist. -/
def fsNoRoot : FS := ⟨false, []⟩

/-- Fixture: a .tsx file whose content does not contain the token. -/
def fileNoTok : SimFile :=
  ⟨String.toList "apps/frontend/src/n.tsx", String.toList "n.tsx",
   true, true, String.toList "hello world"⟩

/-- Fixture: a tree with the single token-free file. -/
def fsNoTok : FS := ⟨true, [fileNoTok]⟩

/-- Fixture: a tree with a single file containing one exact occurrence. -/
def fsOne : FS := ⟨true, [fileA]⟩

/-- Fixture: a token-free .tsx file. -/
def fileD : SimFile :=
  ⟨String.toList "apps/frontend/src/d.tsx", String.toList "d.tsx",
   true, true, String.toList "x"⟩

/-- Fixture: another token-free .tsx file. -/
def fileE : SimFile :=
  ⟨String.toList "apps/frontend/src/e.tsx", String.toList "e.tsx",
   true, true, String.toList "y"⟩

/-- Fixture: three scanned files of which exactly one gets modified. -/
def fsSummary : FS := ⟨true, [fileA, fileD, fileE]⟩

/-- Fixture: a .ts file (different extension) containing the token. -/
def fileTs : SimFile :=
  ⟨String.toList "apps/frontend/src/b.ts", String.toList "b.ts",
   true, true, tok⟩

/-- Fixture: a.tsx, b.ts and c.tsx side by side. -/
def fsExt : FS := ⟨true, [fileA, fileTs, fileC]⟩

lemma fixAux_congr : ∀ fa fb l, l.length ≤ fa → l.length ≤ fb →
    fixAux fa l = fixAux fb l := by
  intro fa
  induction fa with
  | zero =>
    intro fb l ha _
    have hl : l = [] := List.length_eq_zero.mp (Nat.le_zero.mp ha)
    subst hl
    cases fb <;> rfl
  | succ n ih =>
    intro fb l ha hb
    cases l with
    | nil => cases fb <;> rfl
    | cons c cs =>
      cases fb with
      | zero => simp at hb
      | succ m =>
        have hcs : cs.length ≤ n := by simpa using ha
        have hcs2 : cs.length ≤ m := by simpa using hb
        have hd1 : (cs.drop 17).length ≤ n := by
          rw [List.length_drop]
          omega
        have hd2 : (cs.drop 17).length ≤ m := by
          rw [List.length_drop]
          omega
        simp only [fixAux]
        by_cases htk : tokAt (c :: cs) = true
        · simp only [htk, if_true]
          rw [ih m (cs.drop 17) hd1 hd2]
        · rw [Bool.not_eq_true] at htk
          simp only [htk]
          rw [if_neg (by simp), if_neg (by simp), ih m cs hcs hcs2]

lemma cntAux_congr : ∀ fa fb l, l.length ≤ fa → l.length ≤ fb →
    cntAux fa l = cntAux fb l := by
  intro fa
  induction fa with
  | zero =>
    intro fb l ha _
    have hl : l = [] := List.length_eq_zero.mp (Nat.le_zero.mp ha)
    subst hl
    cases fb <;> rfl
  | succ n ih =>
    intro fb l ha hb
    cases l with
    | nil => cases fb <;> rfl
    | cons c cs =>
      cases fb with
      | zero => simp at hb
      | succ m =>
        have hcs : cs.length ≤ n := by simpa using ha
        have hcs2 : cs.length ≤ m := by simpa using hb
        have hd1 : (cs.drop 17).length ≤ n := by
          rw [List.length_drop]
          omega
        have hd2 : (cs.drop 17).length ≤ m := by
          rw [List.length_drop]
          omega
        simp only [cntAux]
        by_cases htk : tokAt (c :: cs) = true
        · simp only [htk, if_true]
          rw [ih m (cs.drop 17) hd1 hd2]
        · rw [Bool.not_eq_true] at htk
          simp only [htk]
          rw [if_neg (by simp), if_neg (by simp), ih m cs hcs hcs2]

lemma fixSub_pos (c : Char) (cs : List Char) (h : tokAt (c :: cs) = true) :
    fixSub (c :: cs) = rep ++ fixSub (cs.drop 17) := by
  show fixAux (cs.length + 1) (c :: cs) = rep ++ fixAux (cs.drop 17).length (cs.drop 17)
  simp only [fixAux, h, if_true]
  rw [fixAux_congr cs.length (cs.drop 17).length (cs.drop 17)
    (by rw [List.length_drop]; omega) le_rfl]

lemma fixSub_neg (c : Char) (cs : List Char) (h : tokAt (c :: cs) = false) :
    fixSub (c :: cs) = c :: fixSub cs := by
  show fixAux (cs.length + 1) (c :: cs) = c :: fixAux cs.length cs
  simp only [fixAux, h]
  rw [if_neg (by simp)]

lemma countRepl_pos (c : Char) (cs : List Char) (h : tokAt (c :: cs) = true) :
    countRepl (c :: cs) = countRepl (cs.drop 17) + 1 := by
  show cntAux (cs.length + 1) (c :: cs) = cntAux (cs.drop 17).length (cs.drop 17) + 1
  simp only [cntAux, h, if_true]
  rw [cntAux_congr cs.length (cs.drop 17).length (cs.drop 17)
    (by rw [List.length_drop]; omega) le_rfl]

lemma countRepl_neg (c : Char) (cs : List Char) (h : tokAt (c :: cs) = false) :
    countRepl (c :: cs) = countRepl cs := by
  show cntAux (cs.length + 1) (c :: cs) = cntAux cs.length cs
  simp only [cntAux, h]
  rw [if_neg (by simp)]

lemma fixSub_of_not_hasTok : ∀ l, hasTok l = false → fixSub l = l := by
  intro l
  induction l with
  | nil => intro _; rfl
  | cons c cs ih =>
    intro h
    have h2 : tokAt (c :: cs) = false ∧ hasTok cs = false := by
      simpa [hasTok] using h
    rw [fixSub_neg c cs h2.1, ih h2.2]

lemma countRepl_eq_zero_iff : ∀ l, countRepl l = 0 ↔ hasTok l = false := by
  intro l
  induction l with
  | nil => simp [countRepl, cntAux, hasTok]
  | cons c cs ih =>
    by_cases htk : tokAt (c :: cs) = true
    · rw [countRepl_pos c cs htk]
      simp [hasTok, htk]
    · rw [Bool.not_eq_true] at htk
      rw [countRepl_neg c cs htk]
      simp [hasTok, htk, ih]

lemma tokFrom_fixSub : ∀ n l ts, l.length ≤ n → ts <:+ tokTail →
    tokFrom ts (fixSub l) = true → tokFrom ts l = true := by
  intro n
  induction n with
  | zero =>
    intro l ts hl _ h
    have hnil : l = [] := List.length_eq_zero.mp (Nat.le_zero.mp hl)
    subst hnil
    exact h
  | succ n ih =>
    intro l ts hl hts h
    cases l with
    | nil => exact h
    | cons c cs =>
      by_cases htk : tokAt (c :: cs) = true
      · rw [fixSub_pos c cs htk] at h
        cases ts with
        | nil =>
          have hfalse : tokFrom ([] : List Char) (rep ++ fixSub (cs.drop 17)) = false := rfl
          rw [hfalse] at h
          cases h
        | cons t ts2 =>
          have hmem : t ∈ tokTail := hts.subset (List.mem_cons_self t ts2)
          have htd : t ≠ 'd' := by
            intro he
            subst he
            revert hmem
            decide
          have hfalse : tokFrom (t :: ts2) (rep ++ fixSub (cs.drop 17)) = false := by
            show (t == 'd' && tokFrom ts2 (repTail ++ fixSub (cs.drop 17))) = false
            simp [htd]
          rw [hfalse] at h
          cases h
      · rw [Bool.not_eq_true] at htk
        rw [fixSub_neg c cs htk] at h
        cases ts with
        | nil => exact h
        | cons t ts2 =>
          have hsub : ts2 <:+ tokTail := (List.suffix_cons t ts2).trans hts
          simp only [tokFrom, Bool.and_eq_true] at h ⊢
          exact ⟨h.1, ih cs ts2 (by simpa using hl) hsub h.2⟩

lemma hasTok_append_of_no_d : ∀ a z, (∀ x ∈ a, x ≠ 'd') → hasTok z = false →
    hasTok (a ++ z) = false := by
  intro a
  induction a with
  | nil =>
    intro z _ hz
    simpa using hz
  | cons x xs ih =>
    intro z hnd hz
    show (tokAt (x :: (xs ++ z)) || hasTok (xs ++ z)) = false
    have h1 : tokAt (x :: (xs ++ z)) = false := by
      show (('d' == x) && tokFrom tokTail (xs ++ z)) = false
      simp [Ne.symm (hnd x (List.mem_cons_self x xs))]
    rw [h1, Bool.false_or]
    exact ih z (fun y hy => hnd y (List.mem_cons_of_mem x hy)) hz

lemma hasTok_rep_append (z : List Char) (hz : hasTok z = false) :
    hasTok (rep ++ z) = false := by
  show (tokAt (rep ++ z) || hasTok (repTail ++ z)) = false
  have h1 : tokAt (rep ++ z) = false := rfl
  rw [h1, Bool.false_or]
  exact hasTok_append_of_no_d repTail z (by decide) hz

lemma hasTok_fixSub_aux : ∀ n l, l.length ≤ n → hasTok (fixSub l) = false := by
  intro n
  induction n with
  | zero =>
    intro l hl
    have hnil : l = [] := List.length_eq_zero.mp (Nat.le_zero.mp hl)
    subst hnil
    rfl
  | succ n ih =>
    intro l hl
    cases l with
    | nil => rfl
    | cons c cs =>
      by_cases htk : tokAt (c :: cs) = true
      · rw [fixSub_pos c cs htk]
        refine hasTok_rep_append _ (ih (cs.drop 17) ?_)
        rw [List.length_drop]
        simp only [List.length_cons] at hl
        omega
      · rw [Bool.not_eq_true] at htk
        rw [fixSub_neg c cs htk]
        show (tokAt (c :: fixSub cs) || hasTok (fixSub cs)) = false
        have hcs : hasTok (fixSub cs) = false := ih cs (by simpa using hl)
        rw [hcs, Bool.or_false]
        by_cases hcd : c = 'd'
        · subst hcd
          show (('d' == 'd') && tokFrom tokTail (fixSub cs)) = false
          rw [show (('d' : Char) == 'd') = true from rfl, Bool.true_and]
          by_cases hf : tokFrom tokTail (fixSub cs) = true
          · exfalso
            have hcs2 : tokFrom tokTail cs = true :=
              tokFrom_fixSub cs.length cs tokTail le_rfl List.suffix_rfl hf
            have htrue : tokAt ('d' :: cs) = true := by
              show (('d' == 'd') && tokFrom tokTail cs) = true
              rw [show (('d' : Char) == 'd') = true from rfl, Bool.true_and]
              exact hcs2
            rw [htrue] at htk
            cases htk
          · rw [Bool.not_eq_true] at hf
            exact hf
        · show (('d' == c) && tokFrom tokTail (fixSub cs)) = false
          simp [Ne.symm hcd]

lemma hasTok_fixSub (l : List Char) : hasTok (fixSub l) = false :=
  hasTok_fixSub_aux l.length l le_rfl

lemma fixSub_idem (l : List Char) : fixSub (fixSub l) = fixSub l :=
  fixSub_of_not_hasTok _ (hasTok_fixSub l)

lemma countRepl_fixSub (l : List Char) : countRepl (fixSub l) = 0 :=
  (countRepl_eq_zero_iff _).mpr (hasTok_fixSub l)

lemma tokFrom_take : ∀ ts l, tokFrom ts l = true → l.take ts.length = ts := by
  intro ts
  induction ts with
  | nil => intro l _; rfl
  | cons t ts2 ih =>
    intro l h
    cases l with
    | nil => cases h
    | cons c cs =>
      simp only [tokFrom, Bool.and_eq_true, beq_iff_eq] at h
      simp only [List.length_cons, List.take_succ_cons]
      rw [← h.1, ih cs h.2]

lemma numOcc_append_of_no_d : ∀ a v, (∀ x ∈ a, x ≠ 'd') →
    numOcc (a ++ v) = numOcc v := by
  intro a
  induction a with
  | nil => intro v _; rfl
  | cons x xs ih =>
    intro v hnd
    show (if tokAt (x :: (xs ++ v)) then 1 else 0) + numOcc (xs ++ v) = numOcc v
    have h1 : tokAt (x :: (xs ++ v)) = false := by
      show (('d' == x) && tokFrom tokTail (xs ++ v)) = false
      simp [Ne.symm (hnd x (List.mem_cons_self x xs))]
    rw [h1, if_neg (by simp), Nat.zero_add]
    exact ih v (fun y hy => hnd y (List.mem_cons_of_mem x hy))

lemma countRepl_eq_numOcc_aux : ∀ n l, l.length ≤ n → countRepl l = numOcc l := by
  intro n
  induction n with
  | zero =>
    intro l hl
    have hnil : l = [] := List.length_eq_zero.mp (Nat.le_zero.mp hl)
    subst hnil
    rfl
  | succ n ih =>
    intro l hl
    cases l with
    | nil => rfl
    | cons c cs =>
      by_cases htk : tokAt (c :: cs) = true
      · rw [countRepl_pos c cs htk]
        have hioc : numOcc (c :: cs) = 1 + numOcc cs := by
          show (if tokAt (c :: cs) then 1 else 0) + numOcc cs = 1 + numOcc cs
          rw [htk, if_pos rfl]
        have htf : tokFrom tokTail cs = true := by
          have hand : (('d' == c) && tokFrom tokTail cs) = true := htk
          have hand2 : ('d' == c) = true ∧ tokFrom tokTail cs = true := by
            simpa [Bool.and_eq_true] using hand
          exact hand2.2
        have htake : cs.take 17 = tokTail := by
          have := tokFrom_take tokTail cs htf
          simpa using this
        have hsplit : cs = tokTail ++ cs.drop 17 := by
          conv_lhs => rw [← List.take_append_drop 17 cs]
          rw [htake]
        have hocc : numOcc cs = numOcc (cs.drop 17) := by
          conv_lhs => rw [hsplit]
          exact numOcc_append_of_no_d tokTail _ (by decide)
        have hlen : (cs.drop 17).length ≤ n := by
          rw [List.length_drop]
          simp only [List.length_cons] at hl
          omega
        rw [ih (cs.drop 17) hlen, hioc, hocc]
        omega
      · rw [Bool.not_eq_true] at htk
        rw [countRepl_neg c cs htk]
        show countRepl cs = (if tokAt (c :: cs) then 1 else 0) + numOcc cs
        rw [htk, if_neg (by simp), Nat.zero_add]
        exact ih cs (by simpa using hl)

lemma countRepl_eq_numOcc (l : List Char) : countRepl l = numOcc l :=
  countRepl_eq_numOcc_aux l.length l le_rfl

lemma fixSub_decompose : ∀ u v, (∀ x ∈ u, x ≠ 'd') → boundaryOk v = true →
    fixSub (u ++ (tok ++ v)) = u ++ (rep ++ fixSub v) := by
  intro u
  induction u with
  | nil =>
    intro v _ hb
    show fixSub (tok ++ v) = rep ++ fixSub v
    have htk : tokAt ('d' :: (tokTail ++ v)) = true := by
      show tokFrom tok (tok ++ v) = true
      rw [show tokFrom tok (tok ++ v) = boundaryOk v from rfl, hb]
    have hstep : fixSub (tok ++ v) = fixSub ('d' :: (tokTail ++ v)) := rfl
    rw [hstep, fixSub_pos 'd' (tokTail ++ v) htk]
    rw [show (tokTail ++ v).drop 17 = v from rfl]
  | cons x xs ih =>
    intro v hnd hb
    show fixSub (x :: (xs ++ (tok ++ v))) = x :: (xs ++ (rep ++ fixSub v))
    have h1 : tokAt (x :: (xs ++ (tok ++ v))) = false := by
      show (('d' == x) && tokFrom tokTail (xs ++ (tok ++ v))) = false
      simp [Ne.symm (hnd x (List.mem_cons_self x xs))]
    rw [fixSub_neg _ _ h1, ih v (fun y hy => hnd y (List.mem_cons_of_mem x hy)) hb]

lemma tokFrom_startsW : ∀ ts l, tokFrom ts l = true → startsW ts l = true := by
  intro ts
  induction ts with
  | nil => intro l _; rfl
  | cons t ts2 ih =>
    intro l h
    cases l with
    | nil => cases h
    | cons c cs =>
      simp only [tokFrom, Bool.and_eq_true] at h
      simp only [startsW, Bool.and_eq_true]
      exact ⟨h.1, ih cs h.2⟩

lemma hasTok_of_hasSub_false : ∀ l, hasSub tok l = false → hasTok l = false := by
  intro l
  induction l with
  | nil => intro _; rfl
  | cons c cs ih =>
    intro h
    rw [show hasSub tok (c :: cs) = (startsW tok (c :: cs) || hasSub tok cs) from rfl,
      Bool.or_eq_false_iff] at h
    show (tokAt (c :: cs) || hasTok cs) = false
    rw [ih h.2, Bool.or_false]
    by_cases ht : tokAt (c :: cs) = true
    · exfalso
      have := tokFrom_startsW tok (c :: cs) ht
      rw [h.1] at this
      cases this
    · rw [Bool.not_eq_true] at ht
      exact ht

lemma update_path (f : SimFile) (q : List Char) (c : List Char) :
    (if f.path == q then { f with content := c } else f).path = f.path := by
  by_cases h : f.path == q <;> simp [h]

lemma update_name (f : SimFile) (q : List Char) (c : List Char) :
    (if f.path == q then { f with content := c } else f).name = f.name := by
  by_cases h : f.path == q <;> simp [h]

lemma update_readable (f : SimFile) (q : List Char) (c : List Char) :
    (if f.path == q then { f with content := c } else f).readable = f.readable := by
  by_cases h : f.path == q <;> simp [h]

lemma update_writable (f : SimFile) (q : List Char) (c : List Char) :
    (if f.path == q then { f with content := c } else f).writable = f.writable := by
  by_cases h : f.path == q <;> simp [h]

lemma lookupFile_writeContent (fs : FS) (q : List Char) (c : List Char)
    (p : List Char) :
    lookupFile (writeContent fs q c) p
      = (lookupFile fs p).map
          (fun f => if f.path == q then { f with content := c } else f) := by
  unfold lookupFile writeContent
  rw [List.find?_map]
  have hpred : ((fun f : SimFile => f.path == p)
        ∘ (fun f => if f.path == q then { f with content := c } else f))
      = (fun f : SimFile => f.path == p) := by
    funext f
    simp only [Function.comp_apply, update_path]
  rw [hpred]

lemma contentAt_writeContent_other (fs : FS) (q : List Char) (c : List Char)
    (p : List Char) (h : p ≠ q) :
    contentAt (writeContent fs q c) p = contentAt fs p := by
  unfold contentAt
  rw [lookupFile_writeContent]
  cases hf : lookupFile fs p with
  | none => rfl
  | some f =>
    have hp : f.path = p := by
      have := List.find?_some hf
      simpa [beq_iff_eq] using this
    have hpq : (f.path == q) = false := by
      rw [hp]
      exact beq_eq_false_iff_ne.mpr h
    have hne : f.path ≠ q := by
      rw [hp]
      exact h
    simp [hpq, hne]

lemma fix_ok (p : List Char) (fs : FS) (f : SimFile)
    (hf : lookupFile fs p = Option.some f) (hr : f.readable = true)
    (hw : f.writable = true) :
    fix_dark_mode_contrast p fs =
      ([Event.readF p, Event.writeF p (fixSub f.content)],
       Except.ok (PyVal.none, writeContent fs p (fixSub f.content))) := by
  unfold fix_dark_mode_contrast
  rw [hf]
  simp [hr, hw]

lemma fix_unreadable (p : List Char) (fs : FS) (f : SimFile)
    (hf : lookupFile fs p = Option.some f) (hr : f.readable = false) :
    fix_dark_mode_contrast p fs = ([], Except.error (PyErr.ioError p)) := by
  unfold fix_dark_mode_contrast
  rw [hf]
  simp [hr]

lemma fix_missing (p : List Char) (fs : FS)
    (hf : lookupFile fs p = Option.none) :
    fix_dark_mode_contrast p fs = ([], Except.error (PyErr.ioError p)) := by
  unfold fix_dark_mode_contrast
  rw [hf]

lemma fix_unwritable (p : List Char) (fs : FS) (f : SimFile)
    (hf : lookupFile fs p = Option.some f) (hr : f.readable = true)
    (hw : f.writable = false) :
    fix_dark_mode_contrast p fs
      = ([Event.readF p], Except.error (PyErr.ioError p)) := by
  unfold fix_dark_mode_contrast
  rw [hf]
  simp [hr, hw]

lemma fix_ok_shape (p : List Char) (fs : FS) (evs : List Event) (v : PyVal)
    (fs2 : FS)
    (h : fix_dark_mode_contrast p fs = (evs, Except.ok (v, fs2))) :
    ∃ c, fs2 = writeContent fs p c := by
  cases hf : lookupFile fs p with
  | none =>
    rw [fix_missing p fs hf] at h
    cases h
  | some f =>
    by_cases hr : f.readable = true
    · by_cases hw : f.writable = true
      · rw [fix_ok p fs f hf hr hw] at h
        cases h
        exact ⟨fixSub f.content, rfl⟩
      · rw [Bool.not_eq_true] at hw
        rw [fix_unwritable p fs f hf hr hw] at h
        cases h
    · rw [Bool.not_eq_true] at hr
      rw [fix_unreadable p fs f hf hr] at h
      cases h

lemma fix_events_paths (p : List Char) (fs : FS) (ev : Event)
    (h : ev ∈ (fix_dark_mode_contrast p fs).1) :
    (∃ c2, ev = Event.writeF p c2) ∨ ev = Event.readF p := by
  cases hf : lookupFile fs p with
  | none =>
    rw [fix_missing p fs hf] at h
    cases h
  | some f =>
    by_cases hr : f.readable = true
    · by_cases hw : f.writable = true
      · rw [fix_ok p fs f hf hr hw] at h
        simp only [List.mem_cons, List.mem_singleton] at h
        rcases h with h | h | h
        · right
          rw [h]
        · left
          exact ⟨fixSub f.content, h⟩
        · cases h
      · rw [Bool.not_eq_true] at hw
        rw [fix_unwritable p fs f hf hr hw] at h
        simp at h
        right
        rw [h]
    · rw [Bool.not_eq_true] at hr
      rw [fix_unreadable p fs f hf hr] at h
      cases h

lemma processFiles_cons_ok (p : List Char) (ps : List (List Char)) (fs : FS)
    (f : SimFile) (hf : lookupFile fs p = Option.some f)
    (hr : f.readable = true) (hw : f.writable = true) :
    processFiles (p :: ps) fs =
      ⟨(processFiles ps (writeContent fs p (fixSub f.content))).fs,
       [Event.readF p, Event.writeF p (fixSub f.content)]
         ++ (processFiles ps (writeContent fs p (fixSub f.content))).events,
       (processFiles ps (writeContent fs p (fixSub f.content))).err⟩ := by
  simp only [processFiles]
  rw [fix_ok p fs f hf hr hw]

lemma processFiles_cons_err (p : List Char) (ps : List (List Char)) (fs : FS)
    (evs : List Event) (e : PyErr)
    (hfix : fix_dark_mode_contrast p fs = (evs, Except.error e)) :
    processFiles (p :: ps) fs = ⟨fs, evs, Option.some e⟩ := by
  simp only [processFiles]
  rw [hfix]

lemma processFiles_all_ok : ∀ ps fs,
    (∀ p ∈ ps, ∃ f, lookupFile fs p = Option.some f
      ∧ f.readable = true ∧ f.writable = true) →
    (processFiles ps fs).err = Option.none
      ∧ ∀ p ∈ ps, ∃ c, Event.writeF p c ∈ (processFiles ps fs).events := by
  intro ps
  induction ps with
  | nil =>
    intro fs _
    exact ⟨rfl, by simp⟩
  | cons p ps ih =>
    intro fs hyp
    obtain ⟨f, hf, hr, hw⟩ := hyp p (List.mem_cons_self p ps)
    rw [processFiles_cons_ok p ps fs f hf hr hw]
    have hyp2 : ∀ q ∈ ps,
        ∃ g, lookupFile (writeContent fs p (fixSub f.content)) q
            = Option.some g
          ∧ g.readable = true ∧ g.writable = true := by
      intro q hq
      obtain ⟨g, hg, hgr, hgw⟩ := hyp q (List.mem_cons_of_mem p hq)
      refine ⟨if g.path == p then { g with content := fixSub f.content }
        else g, ?_, ?_, ?_⟩
      · rw [lookupFile_writeContent, hg]
        rfl
      · rw [update_readable]
        exact hgr
      · rw [update_writable]
        exact hgw
    obtain ⟨herr, hwrites⟩ :=
      ih (writeContent fs p (fixSub f.content)) hyp2
    refine ⟨herr, ?_⟩
    intro q hq
    rcases List.mem_cons.mp hq with h | h
    · subst h
      exact ⟨fixSub f.content, by simp⟩
    · obtain ⟨c, hc⟩ := hwrites q h
      exact ⟨c, by simp [hc]⟩

lemma processFiles_frame : ∀ ps fs q, (q ∈ ps → False) →
    contentAt (processFiles ps fs).fs q = contentAt fs q := by
  intro ps
  induction ps with
  | nil =>
    intro fs q _
    rfl
  | cons p ps ih =>
    intro fs q hq
    have hqp : q ≠ p := fun he => hq (he ▸ List.mem_cons_self p ps)
    cases hfix : fix_dark_mode_contrast p fs with
    | mk evs r =>
      cases r with
      | error e =>
        rw [processFiles_cons_err p ps fs evs e hfix]
      | ok pr =>
        cases pr with
        | mk v fs2 =>
          obtain ⟨c, hc⟩ := fix_ok_shape p fs evs v fs2 hfix
          have hstep : processFiles (p :: ps) fs =
              ⟨(processFiles ps fs2).fs, evs ++ (processFiles ps fs2).events,
               (processFiles ps fs2).err⟩ := by
            simp only [processFiles]
            rw [hfix]
          rw [hstep]
          subst hc
          rw [ih (writeContent fs p c) q
            (fun hm => hq (List.mem_cons_of_mem p hm))]
          exact contentAt_writeContent_other fs p c q hqp

lemma processFiles_events : ∀ ps fs ev, ev ∈ (processFiles ps fs).events →
    ∃ p ∈ ps, (∃ c2, ev = Event.writeF p c2) ∨ ev = Event.readF p := by
  intro ps
  induction ps with
  | nil =>
    intro fs ev h
    exact absurd h (by simp [processFiles])
  | cons p ps ih =>
    intro fs ev h
    cases hfix : fix_dark_mode_contrast p fs with
    | mk evs r =>
      cases r with
      | error e =>
        rw [processFiles_cons_err p ps fs evs e hfix] at h
        have h1 : ev ∈ (fix_dark_mode_contrast p fs).1 := by
          rw [hfix]
          exact h
        exact ⟨p, List.mem_cons_self p ps, fix_events_paths p fs ev h1⟩
      | ok pr =>
        cases pr with
        | mk v fs2 =>
          have hstep : processFiles (p :: ps) fs =
              ⟨(processFiles ps fs2).fs, evs ++ (processFiles ps fs2).events,
               (processFiles ps fs2).err⟩ := by
            simp only [processFiles]
            rw [hfix]
          rw [hstep] at h
          rcases List.mem_append.mp h with h | h
          · have h1 : ev ∈ (fix_dark_mode_contrast p fs).1 := by
              rw [hfix]
              exact h
            exact ⟨p, List.mem_cons_self p ps, fix_events_paths p fs ev h1⟩
          · obtain ⟨q, hq, hdisj⟩ := ih fs2 ev h
            exact ⟨q, List.mem_cons_of_mem p hq, hdisj⟩

lemma mem_rglobTsx (fs : FS) (f : SimFile) :
    f ∈ rglobTsx fs
      ↔ fs.rootExists = true ∧ f ∈ fs.files ∧ matchesTsx f.name = true := by
  unfold rglobTsx
  by_cases h : fs.rootExists = true
  · simp [h, List.mem_filter]
  · rw [Bool.not_eq_true] at h
    simp [h]

lemma pyMain_err (fs : FS) :
    (pyMain fs).err
      = (processFiles ((rglobTsx fs).map (fun f => f.path)) fs).err := rfl

lemma pyMain_fs (fs : FS) :
    (pyMain fs).fs
      = (processFiles ((rglobTsx fs).map (fun f => f.path)) fs).fs := rfl

lemma pyMain_events (fs : FS) :
    (pyMain fs).events
      = (processFiles ((rglobTsx fs).map (fun f => f.path)) fs).events := rfl

lemma pyMain_out_ok (fs : FS)
    (h : (processFiles ((rglobTsx fs).map (fun f => f.path)) fs).err
      = Option.none) :
    (pyMain fs).out = [countMsg (rglobTsx fs).length, doneMsg] := by
  show countMsg (rglobTsx fs).length
      :: (match (processFiles ((rglobTsx fs).map (fun f => f.path)) fs).err
          with | Option.none => [doneMsg] | Option.some _ => [])
    = [countMsg (rglobTsx fs).length, doneMsg]
  rw [h]

lemma pyMain_out_err (fs : FS) (e : PyErr)
    (h : (processFiles ((rglobTsx fs).map (fun f => f.path)) fs).err
      = Option.some e) :
    (pyMain fs).out = [countMsg (rglobTsx fs).length] := by
  show countMsg (rglobTsx fs).length
      :: (match (processFiles ((rglobTsx fs).map (fun f => f.path)) fs).err
          with | Option.none => [doneMsg] | Option.some _ => [])
    = [countMsg (rglobTsx fs).length]
  rw [h]

lemma rglobTsx_no_root (fs : FS) (h : fs.rootExists = false) :
    rglobTsx fs = [] := by
  unfold rglobTsx
  rw [h]
  rfl

lemma pyMain_no_root (fs : FS) (h : fs.rootExists = false) :
    pyMain fs = ⟨fs, [countMsg 0, doneMsg], [], Option.none⟩ := by
  unfold pyMain
  rw [rglobTsx_no_root fs h]
  rfl

lemma pyMain_empty (fs : FS) (h : rglobTsx fs = []) :
    pyMain fs = ⟨fs, [countMsg 0, doneMsg], [], Option.none⟩ := by
  unfold pyMain
  rw [h]
  rfl

lemma contentAt_writeContent_self (fs : FS) (p : List Char) (c : List Char)
    (f : SimFile) (hf : lookupFile fs p = Option.some f) :
    contentAt (writeContent fs p c) p = Option.some c := by
  unfold contentAt
  rw [lookupFile_writeContent, hf]
  have hp : f.path = p := by
    have := List.find?_some hf
    simpa [beq_iff_eq] using this
  simp [hp]

lemma file_eq_of_path_eq (fs : FS)
    (hnd : (fs.files.map (fun g => g.path)).Nodup) (f g : SimFile)
    (hf : f ∈ fs.files) (hg : g ∈ fs.files) (hp : f.path = g.path) :
    f = g :=
  List.inj_on_of_nodup_map hnd hf hg hp

/-- C1: token-boundary correctness of the rewrite.  An exact occurrence of
the token followed by a word boundary is replaced while the surrounding
text is kept; no boundary-matched occurrence of the token survives the
rewrite, so every occurrence is replaced; and on the concrete two-line
input the line holding dark:text-gray-700 becomes dark:text-gray-300 while
the line holding the longer token dark:text-gray-7000 stays unchanged. -/
theorem claim_C1_token_boundary :
    (∀ u v, (∀ x ∈ u, x ≠ 'd') → boundaryOk v = true →
      fixSub (u ++ (tok ++ v)) = u ++ (rep ++ fixSub v))
    ∧ (∀ l, hasTok (fixSub l) = false)
    ∧ fixSub (String.toList "dark:text-gray-700\ndark:text-gray-7000")
        = String.toList "dark:text-gray-300\ndark:text-gray-7000" :=
  ⟨fixSub_decompose, hasTok_fixSub, by decide⟩

/-- Witness for C1: the replacement theorem applied at a concrete context
with both hypotheses discharged. -/
theorem claim_C1_token_boundary_witness :
    fixSub (['x'] ++ (tok ++ ['!'])) = ['x'] ++ (rep ++ fixSub ['!']) :=
  claim_C1_token_boundary.1 ['x'] ['!'] (by decide) (by decide)

/-- C7: idempotence of the rewrite.  Applying the substitution twice gives
the text of one application, the second pass makes 0 replacements, and the
replacement string contains no occurrence of the search token. -/
theorem claim_C7_idempotent :
    (∀ l, fixSub (fixSub l) = fixSub l ∧ countRepl (fixSub l) = 0)
    ∧ hasSub tok rep = false :=
  ⟨fun l => ⟨fixSub_idem l, countRepl_fixSub l⟩, by decide⟩

/-- C10: the boundary assertion only blocks word characters.  A token
occurrence followed by a non-word character is still replaced, one
followed by a word character is not; slash, dash and the double quote are
non-word characters, and concretely dark:text-gray-700/50 becomes
dark:text-gray-300/50. -/
theorem claim_C10_nonword_boundary :
    (∀ c v, isWordChar c = false →
      fixSub (tok ++ (c :: v)) = rep ++ fixSub (c :: v))
    ∧ (∀ c, isWordChar c = true → fixSub (tok ++ [c]) = tok ++ [c])
    ∧ (isWordChar '/' = false ∧ isWordChar '-' = false
        ∧ isWordChar (Char.ofNat 34) = false)
    ∧ fixSub (String.toList "dark:text-gray-700/50")
        = String.toList "dark:text-gray-300/50" := by
  refine ⟨?_, ?_, by decide, by decide⟩
  · intro c v hc
    have h := fixSub_decompose [] (c :: v) (by simp) (by
      show (! isWordChar c) = true
      rw [hc]
      rfl)
    simpa using h
  · intro c hc
    apply fixSub_of_not_hasTok
    show (tokAt (tok ++ [c]) || hasTok (tokTail ++ [c])) = false
    have ha : tokAt (tok ++ [c]) = false := by
      show tokFrom tok (tok ++ [c]) = false
      rw [show tokFrom tok (tok ++ [c]) = boundaryOk [c] from rfl]
      show (! isWordChar c) = false
      rw [hc]
      rfl
    rw [ha, Bool.false_or]
    refine hasTok_append_of_no_d tokTail [c] (by decide) ?_
    show (tokAt [c] || false) = false
    have hb : tokAt [c] = false := by
      show (('d' == c) && tokFrom tokTail []) = false
      rw [show tokFrom tokTail ([] : List Char) = false from rfl]
      exact Bool.and_false _
    rw [hb]
    rfl

/-- Witness for C10: the two boundary theorems applied at the slash of the
opacity modifier and at a following digit. -/
theorem claim_C10_nonword_boundary_witness :
    fixSub (tok ++ ('/' :: String.toList "50"))
        = rep ++ fixSub ('/' :: String.toList "50")
      ∧ fixSub (tok ++ ['0']) = tok ++ ['0'] :=
  ⟨claim_C10_nonword_boundary.1 '/' (String.toList "50") (by decide),
   claim_C10_nonword_boundary.2.1 '0' (by decide)⟩

/-- C3 counterexample: with a missing root the run raises nothing and does
not exit non-zero; it prints the 0-file count line and the completion line
and finishes successfully without touching anything. -/
theorem claim_C3_counterexample :
    (pyMain fsNoRoot).err = Option.none
      ∧ (pyMain fsNoRoot).out = [countMsg 0, doneMsg]
      ∧ (pyMain fsNoRoot).fs = fsNoRoot := by
  decide

/-- C3 amended: a missing root yields an empty enumeration and a normal
successful run that touches no file, exactly like an existing root with no
matching files; neither case is an error. -/
theorem claim_C3_missing_root :
    (∀ fs, fs.rootExists = false →
      rglobTsx fs = []
        ∧ pyMain fs = ⟨fs, [countMsg 0, doneMsg], [], Option.none⟩)
    ∧ (∀ fs, fs.rootExists = true →
        fs.files.filter (fun f => matchesTsx f.name) = [] →
        rglobTsx fs = []
          ∧ pyMain fs = ⟨fs, [countMsg 0, doneMsg], [], Option.none⟩) := by
  constructor
  · intro fs h
    exact ⟨rglobTsx_no_root fs h, pyMain_no_root fs h⟩
  · intro fs h1 h2
    have hg : rglobTsx fs = [] := by
      unfold rglobTsx
      simp [h1, h2]
    exact ⟨hg, pyMain_empty fs hg⟩

/-- Witness for C3 amended at the concrete missing-root state and at a
concrete root holding only a non-matching file. -/
theorem claim_C3_missing_root_witness :
    pyMain fsNoRoot = ⟨fsNoRoot, [countMsg 0, doneMsg], [], Option.none⟩
      ∧ pyMain (FS.mk true [fileTs])
        = ⟨FS.mk true [fileTs], [countMsg 0, doneMsg], [], Option.none⟩ :=
  ⟨(claim_C3_missing_root.1 fsNoRoot (by decide)).2,
   (claim_C3_missing_root.2 (FS.mk true [fileTs]) (by decide) (by decide)).2⟩

/-- C4 counterexample: on a token-free file the call writes the identical
content back but returns None, not the count 0 the claim says it
reports. -/
theorem claim_C4_counterexample :
    retFS (fix_dark_mode_contrast fileNoTok.path fsNoTok).2
        = Option.some fsNoTok
      ∧ retVal (fix_dark_mode_contrast fileNoTok.path fsNoTok).2
        = Option.some PyVal.none
      ∧ PyVal.none ≠ PyVal.int 0 := by
  decide

/-- C4 amended: for a readable and writable file whose text does not
contain the token, the rewrite writes the identical content back (the
file on disk is byte-for-byte unchanged), makes 0 replacements, and
returns None rather than reporting a count. -/
theorem claim_C4_no_match_preserved (fs : FS) (p : List Char) (f : SimFile)
    (hf : lookupFile fs p = Option.some f) (hr : f.readable = true)
    (hw : f.writable = true) (hno : hasSub tok f.content = false) :
    contentAt (writeContent fs p (fixSub f.content)) p
        = Option.some f.content
      ∧ countRepl f.content = 0
      ∧ fix_dark_mode_contrast p fs
        = ([Event.readF p, Event.writeF p f.content],
           Except.ok (PyVal.none, writeContent fs p f.content)) := by
  have hnt : hasTok f.content = false := hasTok_of_hasSub_false _ hno
  have hid : fixSub f.content = f.content := fixSub_of_not_hasTok _ hnt
  refine ⟨?_, (countRepl_eq_zero_iff _).mpr hnt, ?_⟩
  · rw [contentAt_writeContent_self fs p (fixSub f.content) f hf, hid]
  · rw [fix_ok p fs f hf hr hw, hid]

/-- Witness for C4 amended at the concrete token-free file. -/
theorem claim_C4_no_match_preserved_witness :
    contentAt (writeContent fsNoTok fileNoTok.path (fixSub fileNoTok.content))
        fileNoTok.path = Option.some fileNoTok.content
      ∧ countRepl fileNoTok.content = 0
      ∧ fix_dark_mode_contrast fileNoTok.path fsNoTok
        = ([Event.readF fileNoTok.path,
            Event.writeF fileNoTok.path fileNoTok.content],
           Except.ok (PyVal.none,
             writeContent fsNoTok fileNoTok.path fileNoTok.content)) :=
  claim_C4_no_match_preserved fsNoTok fileNoTok.path fileNoTok (by decide)
    (by decide) (by decide) (by decide)

/-- C5 counterexample: on a file holding exactly one exact occurrence the
call succeeds but returns None, not the replacement count 1 the claim says
rewrite returns. -/
theorem claim_C5_counterexample :
    numOcc fileA.content = 1
      ∧ retVal (fix_dark_mode_contrast fileA.path fsOne).2
        = Option.some PyVal.none
      ∧ PyVal.none ≠ PyVal.int 1 := by
  decide

/-- C5 amended: the rewrite performs one replacement per exact occurrence
(the number of replacements equals the number of boundary-matched
occurrences, 0 when there is none, and a zero-match call still succeeds),
but the function returns None instead of that count. -/
theorem claim_C5_replacement_count :
    (∀ l, countRepl l = numOcc l)
    ∧ ∀ fs p f, lookupFile fs p = Option.some f → f.readable = true →
        f.writable = true →
        retVal (fix_dark_mode_contrast p fs).2 = Option.some PyVal.none
          ∧ retFS (fix_dark_mode_contrast p fs).2
            = Option.some (writeContent fs p (fixSub f.content)) := by
  refine ⟨countRepl_eq_numOcc, ?_⟩
  intro fs p f hf hr hw
  rw [fix_ok p fs f hf hr hw]
  exact ⟨rfl, rfl⟩

/-- Witness for C5 amended at the one-occurrence fixture. -/
theorem claim_C5_replacement_count_witness :
    retVal (fix_dark_mode_contrast fileA.path fsOne).2
        = Option.some PyVal.none
      ∧ retFS (fix_dark_mode_contrast fileA.path fsOne).2
        = Option.some (writeContent fsOne fileA.path (fixSub fileA.content)) :=
  claim_C5_replacement_count.2 fsOne fileA.path fileA (by decide) (by decide)
    (by decide)

lemma ready_lookup (fs : FS) (p : List Char)
    (h : readyFile (lookupFile fs p) = true) :
    ∃ f, lookupFile fs p = Option.some f
      ∧ f.readable = true ∧ f.writable = true := by
  cases hf : lookupFile fs p with
  | none =>
    rw [hf] at h
    simp [readyFile] at h
  | some f =>
    rw [hf] at h
    have h2 : f.readable = true ∧ f.writable = true := by
      simpa [readyFile, Bool.and_eq_true] using h
    exact ⟨f, rfl, h2⟩

lemma lookupFile_self (fs : FS)
    (hnd : (fs.files.map (fun g => g.path)).Nodup) (f : SimFile)
    (hf : f ∈ fs.files) : lookupFile fs f.path = Option.some f := by
  unfold lookupFile
  cases hq : fs.files.find? (fun g => g.path == f.path) with
  | none =>
    have := List.find?_eq_none.mp hq f hf
    simp at this
  | some g =>
    have hgmem : g ∈ fs.files := List.mem_of_find?_eq_some hq
    have hgp := List.find?_some hq
    have hgf : g = f := file_eq_of_path_eq fs hnd g f hgmem hf
      (by simpa [beq_iff_eq] using hgp)
    rw [hgf]

/-- C2 counterexample: in the three-file batch whose second file is
unreadable, the run stops at the failure: the third file keeps its
original content although it holds a replaceable occurrence, the IOError
propagates uncaught, and the completion message is never printed — the
batch does not continue past the failure and reports nothing per file. -/
theorem claim_C2_counterexample :
    contentAt (pyMain fsBatch).fs fileC.path = Option.some tok
      ∧ fixSub tok ≠ tok
      ∧ (pyMain fsBatch).err = Option.some (PyErr.ioError fileB.path)
      ∧ (pyMain fsBatch).out = [countMsg 3] := by
  decide

/-- C2 amended: a read or write failure on one file aborts the batch: the
loop stops there with the exception uncaught, files processed earlier keep
their rewritten content, the failing file and every later file stay
untouched, and only the pre-count line is printed.  Concretely, with three
files of which the second is unreadable, the first is rewritten and the
run dies on the second, never reaching the third. -/
theorem claim_C2_abort_on_failure :
    (∀ fs p ps evs e,
      fix_dark_mode_contrast p fs = (evs, Except.error e) →
      processFiles (p :: ps) fs = ⟨fs, evs, Option.some e⟩)
    ∧ pyMain fsBatch
      = ⟨FS.mk true [{ fileA with content := rep }, fileB, fileC],
         [countMsg 3],
         [Event.readF fileA.path, Event.writeF fileA.path rep],
         Option.some (PyErr.ioError fileB.path)⟩ :=
  ⟨fun fs p ps evs e h => processFiles_cons_err p ps fs evs e h, by decide⟩

/-- Witness for C2 amended: the abort theorem applied to the unreadable
file at the head of a batch. -/
theorem claim_C2_abort_on_failure_witness :
    processFiles [fileB.path] fsBatch
      = ⟨fsBatch, [], Option.some (PyErr.ioError fileB.path)⟩ :=
  claim_C2_abort_on_failure.1 fsBatch fileB.path [] []
    (PyErr.ioError fileB.path) (by decide)

/-- C6 counterexample: a run that scans three files and modifies exactly
one prints only the pre-count line and the fixed completion line; no
printed line mentions the number of modified files, so no summary contains
both totals. -/
theorem claim_C6_counterexample :
    specModifiedTotal fsSummary = 1
      ∧ (pyMain fsSummary).out = [countMsg 3, doneMsg]
      ∧ (∀ line ∈ (pyMain fsSummary).out,
          mentionsNum line (specModifiedTotal fsSummary) = false) := by
  decide

/-- C6 amended: a clean run prints exactly two lines — the pre-count line
holding the number of files found and the fixed completion line; the
number of files actually modified is not part of the output and there are
no per-file reports. -/
theorem claim_C6_output_lines (fs : FS)
    (h : ∀ p ∈ (rglobTsx fs).map (fun f => f.path),
      readyFile (lookupFile fs p) = true) :
    (pyMain fs).out = [countMsg (rglobTsx fs).length, doneMsg]
      ∧ (pyMain fs).err = Option.none := by
  have h2 : ∀ p ∈ (rglobTsx fs).map (fun f => f.path),
      ∃ f, lookupFile fs p = Option.some f
        ∧ f.readable = true ∧ f.writable = true :=
    fun p hp => ready_lookup fs p (h p hp)
  have hok := processFiles_all_ok ((rglobTsx fs).map (fun f => f.path)) fs h2
  exact ⟨pyMain_out_ok fs hok.1, by rw [pyMain_err]; exact hok.1⟩

/-- Witness for C6 amended at the three-file fixture. -/
theorem claim_C6_output_lines_witness :
    (pyMain fsSummary).out = [countMsg (rglobTsx fsSummary).length, doneMsg]
      ∧ (pyMain fsSummary).err = Option.none :=
  claim_C6_output_lines fsSummary (by decide)

/-- C8: extension-filter frame property.  Enumeration returns exactly the
files below an existing root whose name matches *.tsx — concretely, of
a.tsx, b.ts and c.tsx exactly a.tsx and c.tsx — and in any tree with
distinct paths a file of another extension is never opened (no open event
touches its path) and never modified by the run. -/
theorem claim_C8_extension_filter :
    (∀ fs f, f ∈ rglobTsx fs
      ↔ fs.rootExists = true ∧ f ∈ fs.files ∧ matchesTsx f.name = true)
    ∧ rglobTsx fsExt = [fileA, fileC]
    ∧ ∀ fs f, (fs.files.map (fun g => g.path)).Nodup → f ∈ fs.files →
        matchesTsx f.name = false →
        contentAt (pyMain fs).fs f.path = Option.some f.content
          ∧ ∀ ev ∈ (pyMain fs).events, evPath ev ≠ f.path := by
  refine ⟨mem_rglobTsx, by decide, ?_⟩
  intro fs f hnd hmem hext
  have hnotin : f.path ∈ (rglobTsx fs).map (fun g => g.path) → False := by
    intro hin
    rcases List.mem_map.mp hin with ⟨g, hg, hgp⟩
    have hgf : g ∈ fs.files := ((mem_rglobTsx fs g).mp hg).2.1
    have hgt : matchesTsx g.name = true := ((mem_rglobTsx fs g).mp hg).2.2
    have hge : g = f := file_eq_of_path_eq fs hnd g f hgf hmem hgp
    rw [hge, hext] at hgt
    cases hgt
  constructor
  · rw [pyMain_fs,
      processFiles_frame ((rglobTsx fs).map (fun g => g.path)) fs f.path
        hnotin]
    unfold contentAt
    rw [lookupFile_self fs hnd f hmem]
    rfl
  · intro ev hev hevp
    rw [pyMain_events] at hev
    obtain ⟨q, hq, hdisj⟩ := processFiles_events _ fs ev hev
    have hq2 : evPath ev = q := by
      rcases hdisj with ⟨c2, rfl⟩ | rfl <;> rfl
    rw [hevp] at hq2
    exact hnotin (by rw [hq2]; exact hq)

/-- Witness for C8: the frame part applied to the concrete b.ts file lying
next to the two .tsx files. -/
theorem claim_C8_extension_filter_witness :
    contentAt (pyMain fsExt).fs fileTs.path = Option.some fileTs.content
      ∧ ∀ ev ∈ (pyMain fsExt).events, evPath ev ≠ fileTs.path :=
  claim_C8_extension_filter.2.2 fsExt fileTs (by decide) (by decide)
    (by decide)

/-- C9: the rewrite never takes the leave-untouched optimization.  Every
file the script can open is opened for writing and overwritten with the
transformed content — the write event is present even when the
substitution changed nothing — and in a clean run every enumerated file
receives a write. -/
theorem claim_C9_always_writes :
    (∀ fs p f, lookupFile fs p = Option.some f → f.readable = true →
      f.writable = true →
      (fix_dark_mode_contrast p fs).1
          = [Event.readF p, Event.writeF p (fixSub f.content)]
        ∧ Event.writeF p (fixSub f.content)
          ∈ (fix_dark_mode_contrast p fs).1)
    ∧ ∀ fs, (∀ p ∈ (rglobTsx fs).map (fun f => f.path),
        readyFile (lookupFile fs p) = true) →
        ∀ p ∈ (rglobTsx fs).map (fun f => f.path),
          ∃ c, Event.writeF p c ∈ (pyMain fs).events := by
  constructor
  · intro fs p f hf hr hw
    rw [fix_ok p fs f hf hr hw]
    exact ⟨rfl, by simp⟩
  · intro fs h p hp
    have h2 : ∀ q ∈ (rglobTsx fs).map (fun f => f.path),
        ∃ f, lookupFile fs q = Option.some f
          ∧ f.readable = true ∧ f.writable = true :=
      fun q hq => ready_lookup fs q (h q hq)
    have hok := processFiles_all_ok ((rglobTsx fs).map (fun f => f.path)) fs h2
    rw [pyMain_events]
    exact hok.2 p hp

/-- Witness for C9: the single-file part applied to the token-free file,
where the write happens although the substitution changes nothing. -/
theorem claim_C9_always_writes_witness :
    (fix_dark_mode_contrast fileNoTok.path fsNoTok).1
        = [Event.readF fileNoTok.path,
           Event.writeF fileNoTok.path (fixSub fileNoTok.content)]
      ∧ Event.writeF fileNoTok.path (fixSub fileNoTok.content)
        ∈ (fix_dark_mode_contrast fileNoTok.path fsNoTok).1 :=
  claim_C9_always_writes.1 fsNoTok fileNoTok.path fileNoTok (by decide)
    (by decide) (by decide)

example : tok = 'd' :: tokTail := rfl

example : rep = 'd' :: repTail := rfl

example :
    fixSub (String.toList "dark:text-gray-700\ndark:text-gray-7000")
      = String.toList "dark:text-gray-300\ndark:text-gray-7000" := by
  decide

example :
    fixSub (String.toList "dark:text-gray-700/50")
      = String.toList "dark:text-gray-300/50" := by
  decide

example : countRepl (String.toList "a dark:text-gray-700 b") = 1 := by
  decide

example : hasSub tok (String.toList "xdark:text-gray-7000y") = true := by
  decide

example : ∀ z : List Char, tokFrom tok (tok ++ z) = boundaryOk z :=
  fun _ => rfl

example : ∀ z : List Char, startsW tok (rep ++ z) = false :=
  fun _ => rfl

end DarkFix
